import Mathlib

set_option maxRecDepth 8000

/-!
Shallow embedding of the `TaxiDataProcessor` spatiotemporal feature pipeline:
row validation, region binning, temporal aggregation, sliding-window sequence
construction, train/test splitting, min-max scaling and future extrapolation.

Modelling conventions:
* JS numbers are embedded as `Rat` (exact arithmetic); `NaN`/missing dynamic
  values are modelled by the `JsNum` inductive.
* Calendar timestamps are abstracted to a `Timestamp` carrying a day code
  (ISO-date order = numeric order on day codes), the hour, the day of week and
  the month as produced by the calendar decode.
* `Array.prototype.sort` with the `(a, b) => new Date(a.date) - new Date(b.date)`
  comparator is a stable sort by date; a stable sort is extensionally unique, so
  it is embedded as insertion sort by date (which is stable).
* The JS object used for grouping preserves insertion order of its string keys,
  so it is embedded as an association list to which fresh keys are appended.
* Mutating `push` loops are embedded as maps over index ranges.
-/

/-- Decimal digits of `n`, least significant first; `fuel` bounds recursion. -/
def natDigitsAux : Nat → Nat → List Nat
  | 0, _ => []
  | Nat.succ fuel, n => if n = 0 then [] else n % 10 :: natDigitsAux fuel (n / 10)

/-- Decimal digits of `n`, least significant first. -/
def natDigits (n : Nat) : List Nat := natDigitsAux n n

/-- The character for a decimal digit. -/
def digitChar (d : Nat) : Char := Char.ofNat (48 + d)

/-- Decimal rendering of a natural number, as JS renders integers in template
literals. -/
def natRepr (n : Nat) : String :=
  if n = 0 then "0" else String.mk ((natDigits n).reverse.map digitChar)

/-- Decimal rendering of an integer, as JS renders integers in template
literals. -/
def intRepr : Int → String
  | Int.ofNat m => natRepr m
  | Int.negSucc m => "-" ++ natRepr (m + 1)

/-- `getRegionId(longitude, latitude, regionSize)`:
`` `region_${Math.floor(longitude/regionSize)}_${Math.floor(latitude/regionSize)}` ``. -/
def getRegionId (longitude latitude regionSize : Rat) : String :=
  "region_" ++ intRepr ⌊longitude / regionSize⌋ ++ "_" ++ intRepr ⌊latitude / regionSize⌋

/-- A dynamically typed numeric CSV field after `dynamicTyping`. -/
inductive JsNum where
  | missing
  | nan
  | num (q : Rat)
deriving DecidableEq

/-- Calendar data carried by a parseable timestamp. -/
structure Timestamp where
  day : Nat
  hour : Nat
  dow : Nat
  month : Nat
deriving DecidableEq

/-- The `pickup_datetime` field: absent, empty, a non-empty string that does
not convert to a valid `Date`, or one that parses to a timestamp. -/
inductive JsDatetime where
  | missing
  | empty
  | invalid
  | valid (ts : Timestamp)
deriving DecidableEq

/-- One decoded CSV row. -/
structure RawRow where
  pickup_datetime : JsDatetime
  pickup_longitude : JsNum
  pickup_latitude : JsNum
  passenger_count : JsNum
deriving DecidableEq

/-- JS truthiness of a numeric field: `0`, `NaN` and missing are falsy. -/
def JsNum.truthy : JsNum → Bool
  | .num q => q != 0
  | _ => false

/-- JS `isNaN` on a numeric field. -/
def JsNum.isNaN : JsNum → Bool
  | .nan => true
  | _ => false

/-- JS truthiness of the datetime field: any non-empty string is truthy. -/
def JsDatetime.truthy : JsDatetime → Bool
  | .valid _ => true
  | .invalid => true
  | _ => false

/-- The numeric value stored downstream for a dynamic field (claims only
inspect it on `num` values). -/
def JsNum.toRat : JsNum → Rat
  | .num q => q
  | _ => 0

/-- The row filter of `loadRawCSV`: `row.pickup_datetime && row.pickup_longitude
&& row.pickup_latitude && !isNaN(row.pickup_longitude) && !isNaN(row.pickup_latitude)`. -/
def validRow (r : RawRow) : Bool :=
  r.pickup_datetime.truthy && r.pickup_longitude.truthy && r.pickup_latitude.truthy
    && !r.pickup_longitude.isNaN && !r.pickup_latitude.isNaN

/-- `loadRawCSV` after decoding: reject an empty decode, filter rows, reject an
empty remainder with the message naming the required columns. -/
def loadRawCSV (rows : List RawRow) : Except String (List RawRow) :=
  if rows.isEmpty then Except.error "CSV file is empty or could not be parsed"
  else
    let valid := rows.filter validRow
    if valid.isEmpty then
      Except.error "No valid records found. Required columns: pickup_datetime, pickup_longitude, pickup_latitude"
    else Except.ok valid

/-- `trip.passenger_count || 1`: falsy (missing, `NaN`, `0`) becomes `1`. -/
def jsOrOne : JsNum → Rat
  | .num q => if q = 0 then 1 else q
  | _ => 1

/-- A validated, derived trip record. -/
structure TripRecord where
  date : Nat
  hour : Nat
  dayOfWeek : Nat
  month : Nat
  region : String
  longitude : Rat
  latitude : Rat
  passenger_count : Rat
deriving DecidableEq, Inhabited

/-- The body of the `processRawData` map: building the record throws (is caught
and mapped to `null`) exactly when the datetime does not convert to a valid
`Date`, since `toISOString` raises on an invalid date. -/
def tryProcess (regionSize : Rat) (r : RawRow) : Option TripRecord :=
  match r.pickup_datetime with
  | .valid ts => some {
      date := ts.day
      hour := ts.hour
      dayOfWeek := ts.dow
      month := ts.month
      region := getRegionId r.pickup_longitude.toRat r.pickup_latitude.toRat regionSize
      longitude := r.pickup_longitude.toRat
      latitude := r.pickup_latitude.toRat
      passenger_count := jsOrOne r.passenger_count }
  | _ => none

/-- `processRawData`: map each row to a record or `null`, then drop the `null`s. -/
def processRawData (regionSize : Rat) (rows : List RawRow) : List TripRecord :=
  ((rows.map (tryProcess regionSize)).filter (fun x => x.isSome)).map (fun x => x.getD default)

/-- The aggregation granularity selector. -/
inductive AggLevel where
  | daily
  | hourly
deriving DecidableEq

/-- One aggregated demand bucket. -/
structure AggregateBucket where
  date : Nat
  hour : Nat
  region : String
  demand : Rat
  totalPassengers : Rat
  dayOfWeek : Nat
  month : Nat
  isWeekend : Rat
deriving DecidableEq, Inhabited

/-- `hour.toString().padStart(2, '0')`. -/
def pad2 (h : Nat) : String := if h < 10 then "0" ++ natRepr h else natRepr h

/-- The grouping key of a trip: `date_region` (daily) or `date_hour_region`
(hourly); the day code stands in for the ISO date string. -/
def tripKey (level : AggLevel) (t : TripRecord) : String :=
  match level with
  | .daily => natRepr t.date ++ "_" ++ t.region
  | .hourly => natRepr t.date ++ "_" ++ pad2 t.hour ++ "_" ++ t.region

/-- The grouping key a bucket was stored under. -/
def keyOf (level : AggLevel) (b : AggregateBucket) : String :=
  match level with
  | .daily => natRepr b.date ++ "_" ++ b.region
  | .hourly => natRepr b.date ++ "_" ++ pad2 b.hour ++ "_" ++ b.region

/-- The bucket freshly created for a key, before any accumulation. -/
def freshBucket (t : TripRecord) : AggregateBucket :=
  { date := t.date
    hour := t.hour
    region := t.region
    demand := 0
    totalPassengers := 0
    dayOfWeek := t.dayOfWeek
    month := t.month
    isWeekend := if t.dayOfWeek = 0 ∨ t.dayOfWeek = 6 then 1 else 0 }

/-- Accumulate one trip into the bucket stored under key `k` (keys are unique
in the association list, so bumping the first match is bumping the match). -/
def bumpFirst (level : AggLevel) (k : String) (p : Rat) :
    List AggregateBucket → List AggregateBucket
  | [] => []
  | b :: rest =>
    if keyOf level b = k then
      { b with demand := b.demand + 1, totalPassengers := b.totalPassengers + p } :: rest
    else b :: bumpFirst level k p rest

/-- One iteration of the grouping loop of `aggregateData`: create the bucket if
the key is new (JS objects append fresh string keys at the end), then add the
trip's demand and passengers. -/
def addTrip (level : AggLevel) (acc : List AggregateBucket) (t : TripRecord) :
    List AggregateBucket :=
  if acc.any (fun b => keyOf level b == tripKey level t) then
    bumpFirst level (tripKey level t) t.passenger_count acc
  else acc ++ [{ freshBucket t with demand := 1, totalPassengers := t.passenger_count }]

/-- The date order used by every `.sort((a, b) => new Date(a.date) - new Date(b.date))`. -/
def dateLe (a b : AggregateBucket) : Prop := a.date ≤ b.date

instance : DecidableRel dateLe := fun a b => Nat.decLe a.date b.date

instance : IsTotal AggregateBucket dateLe := ⟨fun a b => Nat.le_total a.date b.date⟩

instance : IsTrans AggregateBucket dateLe := ⟨fun _ _ _ h h' => Nat.le_trans h h'⟩

/-- Stable sort by ascending date (JS `Array.prototype.sort` is stable, and a
stable sort is extensionally unique, so insertion sort embeds it exactly). -/
def sortByDate (l : List AggregateBucket) : List AggregateBucket := l.insertionSort dateLe

/-- `aggregateData`: group trips by composite key, then sort buckets by date. -/
def aggregateData (level : AggLevel) (trips : List TripRecord) : List AggregateBucket :=
  sortByDate (trips.foldl (addTrip level) [])

/-- `[...new Set(xs)]`: first occurrences, in order. -/
def uniqueFirstAux (seen : List String) : List String → List String
  | [] => []
  | a :: l => if a ∈ seen then uniqueFirstAux seen l else a :: uniqueFirstAux (a :: seen) l

/-- `[...new Set(xs)]`: first occurrences, in order. -/
def uniqueFirst (l : List String) : List String := uniqueFirstAux [] l

/-- The `{date, region}` record pushed alongside each target. -/
structure DateRegion where
  date : Nat
  region : String
deriving DecidableEq, Inhabited

/-- The `sequences` object built by `createSequences`. -/
structure Sequences where
  features : List (List (List Rat))
  targets : List Rat
  dates : List DateRegion
  regions : List String
deriving DecidableEq, Inhabited

/-- The per-bucket feature vector. -/
def featureVector (b : AggregateBucket) : List Rat :=
  [b.demand, (b.dayOfWeek : Rat) / 6, b.isWeekend, b.totalPassengers / max 1 b.demand]

/-- One region's buckets, sorted by date ascending. -/
def regionBuckets (data : List AggregateBucket) (r : String) : List AggregateBucket :=
  sortByDate (data.filter (fun d => d.region == r))

/-- The window of buckets `rd[i - L … i - 1]` read by the inner loop. -/
def windowAt (L : Nat) (rd : List AggregateBucket) (i : Nat) : List AggregateBucket :=
  (List.range' (i - L) L).map (fun j => rd.getD j default)

/-- The `(window, target bucket)` pairs one region contributes: none when it
has at most `L` buckets, else one pair per index `i ∈ [L, rd.length)`. -/
def regionPairs (L : Nat) (rd : List AggregateBucket) :
    List (List AggregateBucket × AggregateBucket) :=
  if rd.length ≤ L then []
  else (List.range' L (rd.length - L)).map (fun i => (windowAt L rd i, rd.getD i default))

/-- All `(window, target bucket)` pairs, accumulated over the distinct regions
in iteration order. -/
def allPairs (L : Nat) (data : List AggregateBucket) :
    List (List AggregateBucket × AggregateBucket) :=
  (uniqueFirst (data.map (fun d => d.region))).flatMap
    (fun r => regionPairs L (regionBuckets data r))

/-- `createSequences(sequenceLength)`. -/
def createSequences (L : Nat) (data : List AggregateBucket) : Except String Sequences :=
  if data.isEmpty then Except.error "No aggregated data available"
  else
    let pairs := allPairs L data
    if pairs.isEmpty then
      Except.error "No sequences could be created. Check sequence length and data size."
    else Except.ok {
      features := pairs.map (fun p => p.1.map featureVector)
      targets := pairs.map (fun p => p.2.demand)
      dates := pairs.map (fun p => { date := p.2.date, region := p.2.region })
      regions := uniqueFirst (data.map (fun d => d.region)) }

/-- A fitted min-max scaler (`tf.min()`/`tf.max()` are global scalar extrema). -/
structure Scaler where
  min : Rat
  max : Rat
deriving DecidableEq

/-- `normalize: (x) => x.sub(min).div(max.sub(min))`, elementwise. -/
def Scaler.normalize (s : Scaler) (x : Rat) : Rat := (x - s.min) / (s.max - s.min)

/-- `denormalize: (x) => x.mul(max.sub(min)).add(min)`, elementwise. -/
def Scaler.denormalize (s : Scaler) (x : Rat) : Rat := x * (s.max - s.min) + s.min

/-- Global minimum of a numeric array (`tf.min()`); `0` on the empty tensor,
which the pipeline never fits on. -/
def listMin : List Rat → Rat
  | [] => 0
  | a :: t => t.foldl min a

/-- Global maximum of a numeric array (`tf.max()`). -/
def listMax : List Rat → Rat
  | [] => 0
  | a :: t => t.foldl max a

/-- `createScaler(tensor)`. -/
def createScaler (l : List Rat) : Scaler := { min := listMin l, max := listMax l }

/-- The scalar entries of a rank-3 tensor, for fitting a global scaler. -/
def flatten3 (t : List (List (List Rat))) : List Rat := (t.map List.flatten).flatten

/-- Elementwise normalization of a rank-3 tensor. -/
def normalize3 (s : Scaler) (t : List (List (List Rat))) : List (List (List Rat)) :=
  t.map (fun w => w.map (fun row => row.map s.normalize))

/-- The value returned by `splitData`, together with the two scalers it fits. -/
structure SplitResult where
  trainFeatures : List (List (List Rat))
  trainTargets : List Rat
  testFeatures : List (List (List Rat))
  testTargets : List Rat
  testDates : List DateRegion
  originalTargets : List Rat
  featureScaler : Scaler
  targetScaler : Scaler
  featureCount : Nat
  sequenceLength : Nat
deriving DecidableEq

/-- `Math.floor(totalSamples * trainRatio)`. -/
def trainSize (totalSamples : Nat) (trainRatio : Rat) : Nat :=
  (⌊(totalSamples : Rat) * trainRatio⌋).toNat

/-- `splitData(trainRatio)`. -/
def splitData (trainRatio : Rat) (seqs : Sequences) : SplitResult :=
  let trainSize := trainSize seqs.features.length trainRatio
  let xTrain := seqs.features.take trainSize
  let yTrain := seqs.targets.take trainSize
  let xTest := seqs.features.drop trainSize
  let yTest := seqs.targets.drop trainSize
  let fScaler := createScaler (flatten3 xTrain)
  let tScaler := createScaler yTrain
  { trainFeatures := normalize3 fScaler xTrain
    trainTargets := yTrain.map tScaler.normalize
    testFeatures := normalize3 fScaler xTest
    testTargets := yTest.map tScaler.normalize
    testDates := seqs.dates.drop trainSize
    originalTargets := yTest
    featureScaler := fScaler
    targetScaler := tScaler
    featureCount := ((seqs.features.headD []).headD []).length
    sequenceLength := (seqs.features.headD []).length }

/-- The value returned by `generateFutureSequence`. -/
structure FutureResult where
  features : List (List (List Rat))
  dates : List DateRegion
deriving DecidableEq

/-- `generateFutureSequence(daysToPredict)`: for each region of the sequence
set with at least `sequenceLength` buckets, its most recent `sequenceLength`
buckets as one feature window, plus `daysToPredict` future date labels counted
from the globally latest aggregated date. -/
def generateFutureSequence (daysToPredict : Nat) (data : List AggregateBucket)
    (seqs : Sequences) (featureScaler : Scaler) : Except String FutureResult :=
  let L := (seqs.features.headD []).length
  let lastDate := (data.getLastD default).date
  let qualifying := seqs.regions.filter (fun r => L ≤ (regionBuckets data r).length)
  let futureSequences := qualifying.map (fun r =>
    ((regionBuckets data r).drop ((regionBuckets data r).length - L)).map featureVector)
  let futureDates := qualifying.flatMap (fun r =>
    (List.range' 1 daysToPredict).map (fun i => ({ date := lastDate + i, region := r } : DateRegion)))
  if futureSequences.isEmpty then Except.error "Could not generate future sequences"
  else Except.ok {
    features := futureSequences.map (fun w => w.map (fun row => row.map featureScaler.normalize))
    dates := futureDates }

/-! ### Claim-side predicates and concrete data used by witnesses -/

/-- "Timestamp present and parseable" as the spec words it. -/
def isParseable (r : RawRow) : Bool :=
  match r.pickup_datetime with
  | .valid _ => true
  | _ => false

/-- The spec's retention predicate for `loadRawCSV`: timestamp present and
parseable, longitude and latitude present and numeric. -/
def specRetained (r : RawRow) : Bool :=
  isParseable r
    && (match r.pickup_longitude with | .num _ => true | _ => false)
    && (match r.pickup_latitude with | .num _ => true | _ => false)

/-- Passenger-count fields for which the `≥ 1` invariant does hold: absent,
`NaN`, or a number that is `0` or at least `1`. -/
def pcOk (v : JsNum) : Bool :=
  match v with
  | .missing => true
  | .nan => true
  | .num q => q == 0 || decide (1 ≤ q)

/-- Value decoded from a little-endian digit list. -/
def decodeDigits (ds : List Nat) : Nat := ds.foldr (fun d acc => d + 10 * acc) 0

/-- The grouping invariant maintained while `aggregateData` folds trips into
its key-indexed accumulator. -/
def AggInv (level : AggLevel) (processed : List TripRecord) (acc : List AggregateBucket) : Prop :=
  (acc.map (keyOf level)).Nodup
    ∧ (∀ b ∈ acc,
        b.demand = (processed.countP (fun t => tripKey level t == keyOf level b) : Rat))
    ∧ (∀ t ∈ processed, tripKey level t ∈ acc.map (keyOf level))
    ∧ ((acc.map (fun b => b.demand)).sum = (processed.length : Rat))

/-- A raw row that is valid in every respect. -/
def okRow : RawRow :=
  { pickup_datetime := JsDatetime.valid { day := 3, hour := 7, dow := 2, month := 0 }
    pickup_longitude := JsNum.num 1
    pickup_latitude := JsNum.num 2
    passenger_count := JsNum.num 3 }

/-- A raw row whose longitude is present and numeric but `0`, hence falsy. -/
def zeroLonRow : RawRow :=
  { pickup_datetime := JsDatetime.valid { day := 0, hour := 0, dow := 0, month := 0 }
    pickup_longitude := JsNum.num 0
    pickup_latitude := JsNum.num 40
    passenger_count := JsNum.missing }

/-- A raw row with a fractional passenger count below one. -/
def halfRow : RawRow :=
  { pickup_datetime := JsDatetime.valid { day := 0, hour := 0, dow := 0, month := 0 }
    pickup_longitude := JsNum.num 1
    pickup_latitude := JsNum.num 1
    passenger_count := JsNum.num 0.5 }

/-- Witness trip, first of two on distinct days in region `a`. -/
def wtA : TripRecord :=
  { date := 4, hour := 1, dayOfWeek := 1, month := 0, region := "a"
    longitude := 0, latitude := 0, passenger_count := 1 }

/-- Witness trip, second of two on distinct days in region `a`. -/
def wtB : TripRecord :=
  { date := 5, hour := 2, dayOfWeek := 2, month := 0, region := "a"
    longitude := 0, latitude := 0, passenger_count := 1 }

/-- The bucket `wtA` aggregates into. -/
def wbA : AggregateBucket :=
  { date := 4, hour := 1, region := "a", demand := 1, totalPassengers := 1
    dayOfWeek := 1, month := 0, isWeekend := 0 }

/-- The bucket `wtB` aggregates into. -/
def wbB : AggregateBucket :=
  { date := 5, hour := 2, region := "a", demand := 1, totalPassengers := 1
    dayOfWeek := 2, month := 0, isWeekend := 0 }

/-- Counterexample trips: same day, same region, different hours. -/
def hA : TripRecord :=
  { date := 5, hour := 3, dayOfWeek := 2, month := 0, region := "a"
    longitude := 0, latitude := 0, passenger_count := 1 }

/-- Counterexample trips: same day, same region, different hours. -/
def hB : TripRecord :=
  { date := 5, hour := 7, dayOfWeek := 2, month := 0, region := "a"
    longitude := 0, latitude := 0, passenger_count := 1 }

/-- A witness bucket series: day `d` in region `a` with one trip. -/
def wBucket (d : Nat) : AggregateBucket :=
  { date := d, hour := 0, region := "a", demand := 1, totalPassengers := 1
    dayOfWeek := d % 7, month := 0, isWeekend := 0 }

/-- Twenty days of aggregated history for one region. -/
def wBuckets : List AggregateBucket := (List.range 20).map wBucket

/-- A five-sample sequence set for exercising `splitData`. -/
def wSeqs : Sequences :=
  { features := List.replicate 5 [[1, 2]]
    targets := [3, 4, 5, 6, 7]
    dates := List.replicate 5 { date := 0, region := "a" }
    regions := ["a"] }

/-- A sequence set whose window length is `3`, for exercising
`generateFutureSequence` against `wBuckets`. -/
def wSeqsF : Sequences :=
  { features := [List.replicate 3 [1]]
    targets := [1]
    dates := [{ date := 0, region := "a" }]
    regions := ["a"] }

/-- An already-fitted scaler for exercising `generateFutureSequence`. -/
def wScaler : Scaler := { min := 0, max := 1 }

/-! ### Helper lemmas -/

theorem length_filterMap_eq_length_filter {α β : Type} (f : α → Option β) (l : List α) :
    (l.filterMap f).length = (l.filter (fun a => (f a).isSome)).length := by
  induction l with
  | nil => rfl
  | cons a l ih =>
    cases h : f a <;> simp [List.filterMap_cons, List.filter_cons, h, ih]

theorem processRawData_eq_filterMap (s : Rat) (rows : List RawRow) :
    processRawData s rows = rows.filterMap (tryProcess s) := by
  induction rows with
  | nil => rfl
  | cons r rows ih =>
    cases h : tryProcess s r <;>
      simp_all [processRawData, List.filterMap_cons, List.filter_cons, h]

theorem tryProcess_isSome_iff (s : Rat) (r : RawRow) :
    (tryProcess s r).isSome = isParseable r := by
  cases h : r.pickup_datetime <;> simp [tryProcess, isParseable, h]

/-! ### C10 -/

/-- C10: `processRawData` is total over its rows: each row maps to at most one
record, a row whose timestamp does not convert is dropped rather than aborting,
and the output length is the number of rows whose timestamp converts. -/
theorem processRawData_total (s : Rat) (rows : List RawRow) :
    processRawData s rows = rows.filterMap (tryProcess s)
    ∧ (processRawData s rows).length = (rows.filter (fun r => isParseable r)).length
    ∧ ∀ r : RawRow, (tryProcess s r).isSome = isParseable r := by
  refine ⟨processRawData_eq_filterMap s rows, ?_, tryProcess_isSome_iff s⟩
  rw [processRawData_eq_filterMap s rows, length_filterMap_eq_length_filter]
  congr 1
  exact List.filter_congr (fun r _ => tryProcess_isSome_iff s r)

/-! ### C7 -/

/-- C7 counterexample: a row whose longitude is present and numeric (`0`) and
whose timestamp parses is nonetheless dropped, because the filter tests JS
truthiness; with it as the only row, `loadRawCSV` errors instead of retaining it. -/
theorem loadRawCSV_claim_cex :
    specRetained zeroLonRow = true
    ∧ loadRawCSV [zeroLonRow]
        = Except.error "No valid records found. Required columns: pickup_datetime, pickup_longitude, pickup_latitude" := by
  constructor
  · rfl
  · rfl

/-- C7 amended: `loadRawCSV` retains exactly the rows passing the truthiness
filter `validRow` (truthy timestamp — parseability is not yet checked — and
truthy, non-`NaN` coordinates, so a coordinate equal to `0` is dropped); if no
row survives it fails with the error naming the required fields. -/
theorem loadRawCSV_truthy_filter (rows : List RawRow) (hne : rows ≠ []) :
    (rows.filter validRow ≠ [] → loadRawCSV rows = Except.ok (rows.filter validRow))
    ∧ (rows.filter validRow = [] →
        loadRawCSV rows
          = Except.error "No valid records found. Required columns: pickup_datetime, pickup_longitude, pickup_latitude")
    ∧ (∀ r : RawRow, r.pickup_longitude = JsNum.num 0 → validRow r = false) := by
  refine ⟨?_, ?_, ?_⟩
  · intro hval
    simp [loadRawCSV, hne, hval]
  · intro hval
    simp [loadRawCSV, hne, hval]
  · intro r hr
    simp [validRow, hr, JsNum.truthy]

/-- C7 witness: on a concrete one-row input the filter retains the row and
`loadRawCSV` succeeds. -/
theorem loadRawCSV_truthy_filter_witness :
    loadRawCSV [okRow] = Except.ok ([okRow].filter validRow) :=
  (loadRawCSV_truthy_filter [okRow] (by decide)).1 (by decide)

/-! ### C9 -/

/-- C9 counterexample: a raw passenger count of `0.5` is truthy, passes through
`|| 1` unchanged, and yields a `TripRecord` with passenger count below `1`. -/
theorem passenger_count_cex :
    ¬ (∀ t ∈ processRawData 0.05 [halfRow], 1 ≤ t.passenger_count) := by
  intro h
  have ht := h
    { date := 0, hour := 0, dayOfWeek := 0, month := 0
      region := getRegionId (JsNum.num 1).toRat (JsNum.num 1).toRat 0.05
      longitude := (JsNum.num 1).toRat, latitude := (JsNum.num 1).toRat
      passenger_count := jsOrOne (JsNum.num 0.5) }
    (by simp [processRawData, tryProcess, halfRow])
  norm_num [jsOrOne] at ht

/-- C9 amended: when the raw `passenger_count` is absent (or otherwise falsy)
it defaults to `1`, and every produced `TripRecord` has passenger count `≥ 1`
provided each raw count is absent, `NaN`, or a number that is `0` or `≥ 1`
(a truthy number below `1` is passed through unchanged). -/
theorem passenger_count_amended :
    (∀ (s : Rat) (rows : List RawRow), (∀ r ∈ rows, pcOk r.passenger_count = true) →
      ∀ t ∈ processRawData s rows, 1 ≤ t.passenger_count)
    ∧ (∀ v : JsNum, v.truthy = false → jsOrOne v = 1) := by
  constructor
  · intro s rows hrows t ht
    rw [processRawData_eq_filterMap] at ht
    obtain ⟨r, hr, hconv⟩ := List.mem_filterMap.mp ht
    have hpc : t.passenger_count = jsOrOne r.passenger_count := by
      cases hdt : r.pickup_datetime <;> simp [tryProcess, hdt] at hconv
      rw [← hconv]
    have hok := hrows r hr
    rw [hpc]
    cases hv : r.passenger_count with
    | missing => simp [jsOrOne]
    | nan => simp [jsOrOne]
    | num q =>
      rw [hv] at hok
      simp only [pcOk, Bool.or_eq_true, beq_iff_eq, decide_eq_true_eq] at hok
      rcases hok with h0 | h1
      · simp [jsOrOne, h0]
      · have hq : q ≠ 0 := by
          intro h
          rw [h] at h1
          norm_num at h1
        simp [jsOrOne, hq, h1]
  · intro v hv
    cases v with
    | missing => rfl
    | nan => rfl
    | num q =>
      simp only [JsNum.truthy, bne_eq_false_iff_eq] at hv
      simp [jsOrOne, hv]

/-- C9 witness: on a concrete row with passenger count `3`, the produced record
has passenger count at least `1`. -/
theorem passenger_count_amended_witness :
    ∀ t ∈ processRawData 0.05 [okRow], 1 ≤ t.passenger_count :=
  passenger_count_amended.1 0.05 [okRow] (by decide)

/-! ### C3 -/

theorem foldl_min_le_init (l : List Rat) : ∀ a : Rat, l.foldl min a ≤ a := by
  induction l with
  | nil => intro a; exact le_refl a
  | cons x l ih =>
    intro a
    exact le_trans (ih (min a x)) (min_le_left a x)

theorem foldl_min_le_mem (l : List Rat) : ∀ a : Rat, ∀ x ∈ l, l.foldl min a ≤ x := by
  induction l with
  | nil => intro a x hx; exact absurd hx (List.not_mem_nil x)
  | cons y l ih =>
    intro a x hx
    rcases List.mem_cons.mp hx with h | h
    · subst h
      exact le_trans (foldl_min_le_init l (min a x)) (min_le_right a x)
    · exact ih (min a y) x h

theorem le_foldl_max_init (l : List Rat) : ∀ a : Rat, a ≤ l.foldl max a := by
  induction l with
  | nil => intro a; exact le_refl a
  | cons x l ih =>
    intro a
    exact le_trans (le_max_left a x) (ih (max a x))

theorem mem_le_foldl_max (l : List Rat) : ∀ a : Rat, ∀ x ∈ l, x ≤ l.foldl max a := by
  induction l with
  | nil => intro a x hx; exact absurd hx (List.not_mem_nil x)
  | cons y l ih =>
    intro a x hx
    rcases List.mem_cons.mp hx with h | h
    · subst h
      exact le_trans (le_max_right a x) (le_foldl_max_init l (max a x))
    · exact ih (max a y) x h

theorem listMin_le_mem {l : List Rat} {x : Rat} (hx : x ∈ l) : listMin l ≤ x := by
  cases l with
  | nil => exact absurd hx (List.not_mem_nil x)
  | cons a t =>
    rcases List.mem_cons.mp hx with h | h
    · subst h; exact foldl_min_le_init t x
    · exact foldl_min_le_mem t a x h

theorem mem_le_listMax {l : List Rat} {x : Rat} (hx : x ∈ l) : x ≤ listMax l := by
  cases l with
  | nil => exact absurd hx (List.not_mem_nil x)
  | cons a t =>
    rcases List.mem_cons.mp hx with h | h
    · subst h; exact le_foldl_max_init t x
    · exact mem_le_foldl_max t a x h

/-- C3: for a scaler fit on an array whose global minimum is below its global
maximum, `normalize` and `denormalize` are exact affine inverses (hence inverse
within any tolerance, in particular `1e-6`), `normalize` sends the minimum to
`0` and the maximum to `1`, the fitted bounds are the global extrema, and on
`[2,4,6,8]` the fit is `min = 2, max = 8` with `normalize 4 = 1/3 ≈ 0.333` and
`denormalize (333/1000) = 3.998 ≈ 4` within `1/100`. -/
theorem createScaler_affine_inverse :
    (∀ l : List Rat, listMin l < listMax l →
      ((createScaler l).min = listMin l ∧ (createScaler l).max = listMax l)
      ∧ (∀ x ∈ l, (createScaler l).min ≤ x ∧ x ≤ (createScaler l).max)
      ∧ (∀ x : Rat, (createScaler l).denormalize ((createScaler l).normalize x) = x)
      ∧ (∀ x : Rat,
          |(createScaler l).denormalize ((createScaler l).normalize x) - x| < 1 / 1000000)
      ∧ (createScaler l).normalize (listMin l) = 0
      ∧ (createScaler l).normalize (listMax l) = 1)
    ∧ createScaler [2, 4, 6, 8] = { min := 2, max := 8 }
    ∧ (createScaler [2, 4, 6, 8]).normalize 4 = 1 / 3
    ∧ (createScaler [2, 4, 6, 8]).denormalize (333 / 1000) = 3998 / 1000
    ∧ |(4 : Rat) - (createScaler [2, 4, 6, 8]).denormalize (333 / 1000)| < 1 / 100 := by
  have hs : createScaler [2, 4, 6, 8] = { min := 2, max := 8 } := by decide
  have hround : ∀ l : List Rat, listMin l < listMax l →
      ∀ x : Rat, (createScaler l).denormalize ((createScaler l).normalize x) = x := by
    intro l hlt x
    have hne : listMax l - listMin l ≠ 0 := sub_ne_zero_of_ne (ne_of_gt hlt)
    simp only [createScaler, Scaler.normalize, Scaler.denormalize]
    field_simp
  refine ⟨?_, hs, ?_, ?_, ?_⟩
  · intro l hlt
    have hne : listMax l - listMin l ≠ 0 := sub_ne_zero_of_ne (ne_of_gt hlt)
    refine ⟨⟨rfl, rfl⟩, ?_, hround l hlt, ?_, ?_, ?_⟩
    · intro x hx
      exact ⟨listMin_le_mem hx, mem_le_listMax hx⟩
    · intro x
      rw [hround l hlt x]
      simp only [sub_self, abs_zero]
      norm_num
    · simp only [createScaler, Scaler.normalize, sub_self, zero_div]
    · simp only [createScaler, Scaler.normalize]
      exact div_self hne
  · rw [hs]
    simp only [Scaler.normalize]
    norm_num
  · rw [hs]
    simp only [Scaler.denormalize]
    norm_num
  · rw [hs]
    simp only [Scaler.denormalize]
    rw [abs_of_pos (by norm_num)]
    norm_num

/-- C3 witness: on `[2,4,6,8]` the fitted extrema satisfy the hypothesis and
normalization sends the minimum to `0`. -/
theorem createScaler_affine_inverse_witness :
    (createScaler [2, 4, 6, 8]).normalize (listMin [2, 4, 6, 8]) = 0 :=
  (createScaler_affine_inverse.1 [2, 4, 6, 8] (by decide)).2.2.2.2.1

/-! ### C4: injectivity of the region key encoding -/

theorem decodeDigits_nil : decodeDigits [] = 0 := rfl

theorem decodeDigits_cons (d : Nat) (ds : List Nat) :
    decodeDigits (d :: ds) = d + 10 * decodeDigits ds := rfl

theorem decodeDigits_natDigitsAux :
    ∀ fuel n : Nat, n ≤ fuel → decodeDigits (natDigitsAux fuel n) = n := by
  intro fuel
  induction fuel with
  | zero =>
    intro n hn
    have : n = 0 := Nat.le_zero.mp hn
    subst this
    rfl
  | succ fuel ih =>
    intro n hn
    by_cases h0 : n = 0
    · subst h0; rfl
    · have hpos : 0 < n := Nat.pos_of_ne_zero h0
      have hdiv : n / 10 ≤ fuel := by
        have := Nat.div_lt_self hpos (by norm_num : 1 < 10)
        omega
      simp only [natDigitsAux, if_neg h0]
      rw [decodeDigits_cons, ih _ hdiv, Nat.mod_add_div n 10]

theorem decodeDigits_natDigits (n : Nat) : decodeDigits (natDigits n) = n :=
  decodeDigits_natDigitsAux n n (Nat.le_refl n)

theorem natDigitsAux_lt_ten :
    ∀ fuel n : Nat, ∀ d ∈ natDigitsAux fuel n, d < 10 := by
  intro fuel
  induction fuel with
  | zero => intro n d hd; exact absurd hd (List.not_mem_nil d)
  | succ fuel ih =>
    intro n d hd
    by_cases h0 : n = 0
    · subst h0; exact absurd hd (List.not_mem_nil d)
    · simp only [natDigitsAux, if_neg h0] at hd
      rcases List.mem_cons.mp hd with h | h
      · subst h; exact Nat.mod_lt n (by norm_num)
      · exact ih (n / 10) d h

theorem natDigits_ne_nil {n : Nat} (hn : 0 < n) : natDigits n ≠ [] := by
  cases n with
  | zero => exact absurd hn (by norm_num)
  | succ k =>
    simp only [natDigits, natDigitsAux, if_neg (Nat.succ_ne_zero k)]
    exact List.cons_ne_nil _ _

theorem digitChar_toNat : ∀ d : Nat, d < 10 → (digitChar d).toNat = 48 + d := by decide

theorem natRepr_leftInv (n : Nat) :
    decodeDigits (((natRepr n).data.reverse).map (fun c => c.toNat - 48)) = n := by
  by_cases h0 : n = 0
  · subst h0; rfl
  · rw [natRepr, if_neg h0]
    show decodeDigits ((((natDigits n).reverse.map digitChar).reverse).map
      (fun c => c.toNat - 48)) = n
    rw [List.map_reverse, List.map_reverse, List.map_reverse, List.reverse_reverse, List.map_map]
    have hcongr : (natDigits n).map ((fun c => c.toNat - 48) ∘ digitChar) = natDigits n := by
      rw [List.map_eq_iff]
      intro i
      cases hi : (natDigits n)[i]? with
      | none => rfl
      | some d =>
        have hd : d ∈ natDigits n := List.getElem?_mem hi
        have hlt : d < 10 := natDigitsAux_lt_ten n n d hd
        have h48 : ((fun c => c.toNat - 48) ∘ digitChar) d = d := by
          simp only [Function.comp_apply, digitChar_toNat d hlt]
          omega
        rw [Option.map_some', h48]
    rw [hcongr, decodeDigits_natDigits]

theorem natRepr_data_inj {m n : Nat} (h : (natRepr m).data = (natRepr n).data) : m = n := by
  have hm := natRepr_leftInv m
  rw [h, natRepr_leftInv n] at hm
  exact hm.symm

theorem natRepr_chars {n : Nat} : ∀ c ∈ (natRepr n).data, 48 ≤ c.toNat ∧ c.toNat ≤ 57 := by
  intro c hc
  by_cases h0 : n = 0
  · subst h0
    have : c = '0' := by
      rcases List.mem_cons.mp hc with h | h
      · exact h
      · exact absurd h (List.not_mem_nil c)
    subst this
    decide
  · rw [natRepr, if_neg h0] at hc
    have hc' : c ∈ (natDigits n).reverse.map digitChar := hc
    obtain ⟨d, hd, hdc⟩ := List.mem_map.mp hc'
    have hlt : d < 10 := natDigitsAux_lt_ten n n d (List.mem_reverse.mp hd)
    subst hdc
    rw [digitChar_toNat d hlt]
    omega

theorem natRepr_data_ne_nil (n : Nat) : (natRepr n).data ≠ [] := by
  by_cases h0 : n = 0
  · subst h0; exact List.cons_ne_nil _ _
  · rw [natRepr, if_neg h0]
    show (natDigits n).reverse.map digitChar ≠ []
    simp only [ne_eq, List.map_eq_nil_iff, List.reverse_eq_nil_iff]
    exact natDigits_ne_nil (Nat.pos_of_ne_zero h0)


theorem intRepr_negSucc_data (m : Nat) :
    (intRepr (Int.negSucc m)).data = '-' :: (natRepr (m + 1)).data := by
  show (("-" : String) ++ natRepr (m + 1)).data = _
  rw [String.data_append]
  rfl

theorem intRepr_data_inj : ∀ i j : Int, (intRepr i).data = (intRepr j).data → i = j := by
  intro i j h
  cases i with
  | ofNat m =>
    cases j with
    | ofNat n => exact congrArg Int.ofNat (natRepr_data_inj h)
    | negSucc n =>
      exfalso
      rw [intRepr, intRepr_negSucc_data] at h
      have hmem : '-' ∈ (natRepr m).data := by
        rw [h]; exact List.mem_cons_self _ _
      have := (natRepr_chars '-' hmem).1
      exact absurd this (by decide)
  | negSucc m =>
    cases j with
    | ofNat n =>
      exfalso
      rw [intRepr, intRepr_negSucc_data] at h
      have hmem : '-' ∈ (natRepr n).data := by
        rw [← h]; exact List.mem_cons_self _ _
      have := (natRepr_chars '-' hmem).1
      exact absurd this (by decide)
    | negSucc n =>
      rw [intRepr_negSucc_data, intRepr_negSucc_data] at h
      have htail := (List.cons.inj h).2
      have := natRepr_data_inj htail
      exact congrArg Int.negSucc (by omega)

theorem intRepr_no_underscore : ∀ i : Int, '_' ∉ (intRepr i).data := by
  intro i hmem
  cases i with
  | ofNat m =>
    have := (natRepr_chars '_' hmem).2
    exact absurd this (by decide)
  | negSucc m =>
    rw [intRepr_negSucc_data] at hmem
    rcases List.mem_cons.mp hmem with h | h
    · exact absurd h (by decide)
    · have := (natRepr_chars '_' h).2
      exact absurd this (by decide)

theorem append_sep_inj :
    ∀ s1 t1 s2 t2 : List Char, '_' ∉ s1 → '_' ∉ t1 →
      s1 ++ '_' :: s2 = t1 ++ '_' :: t2 → s1 = t1 ∧ s2 = t2 := by
  intro s1
  induction s1 with
  | nil =>
    intro t1 s2 t2 h1 h2 heq
    cases t1 with
    | nil =>
      simp only [List.nil_append] at heq
      exact ⟨rfl, (List.cons.inj heq).2⟩
    | cons c t1 =>
      exfalso
      simp only [List.nil_append, List.cons_append] at heq
      have hc := (List.cons.inj heq).1
      exact h2 (hc ▸ List.mem_cons_self c t1)
  | cons c s1 ih =>
    intro t1 s2 t2 h1 h2 heq
    cases t1 with
    | nil =>
      exfalso
      simp only [List.nil_append, List.cons_append] at heq
      have hc := (List.cons.inj heq).1
      exact h1 (hc ▸ List.mem_cons_self c s1)
    | cons d t1 =>
      simp only [List.cons_append] at heq
      obtain ⟨hc, htail⟩ := List.cons.inj heq
      have h1' : '_' ∉ s1 := fun hm => h1 (List.mem_cons_of_mem c hm)
      have h2' : '_' ∉ t1 := fun hm => h2 (List.mem_cons_of_mem d hm)
      obtain ⟨hs, ht⟩ := ih t1 s2 t2 h1' h2' htail
      exact ⟨by rw [hc, hs], ht⟩

theorem regionString_inj (a b a' b' : Int)
    (h : "region_" ++ intRepr a ++ "_" ++ intRepr b
        = "region_" ++ intRepr a' ++ "_" ++ intRepr b') :
    a = a' ∧ b = b' := by
  have hd := congrArg String.data h
  simp only [String.data_append] at hd
  have hd' : (intRepr a).data ++ '_' :: (intRepr b).data
      = (intRepr a').data ++ '_' :: (intRepr b').data := by
    simp only [List.append_assoc, List.cons_append, List.nil_append,
      List.cons.injEq, eq_self_iff_true, true_and] at hd
    exact hd
  obtain ⟨ha, hb⟩ := append_sep_inj _ _ _ _ (intRepr_no_underscore a)
    (intRepr_no_underscore a') hd'
  exact ⟨intRepr_data_inj a a' ha, intRepr_data_inj b b' (by
    have : ('_' :: (intRepr b).data) = ('_' :: (intRepr b').data) := by
      have := hd'
      rw [ha] at this
      exact List.append_cancel_left this
    exact (List.cons.inj this).2)⟩

/-! ### C4 -/

/-- C4: `getRegionId` returns the string
`region_{floor(longitude/regionSize)}_{floor(latitude/regionSize)}`, is a pure
function of its three arguments, and two coordinate pairs receive the same
region id iff both floored cell indices coincide; with `regionSize = 0.1`,
`(12.34, 56.78)` and `(12.39, 56.79)` share `region_123_567` while
`(12.45, 56.78)` gets a different id. -/
theorem getRegionId_spec :
    (∀ lon lat s : Rat, getRegionId lon lat s
        = "region_" ++ intRepr ⌊lon / s⌋ ++ "_" ++ intRepr ⌊lat / s⌋)
    ∧ (∀ lon1 lat1 lon2 lat2 s : Rat,
        getRegionId lon1 lat1 s = getRegionId lon2 lat2 s
          ↔ (⌊lon1 / s⌋ = ⌊lon2 / s⌋ ∧ ⌊lat1 / s⌋ = ⌊lat2 / s⌋))
    ∧ getRegionId 12.34 56.78 0.1 = "region_123_567"
    ∧ getRegionId 12.39 56.79 0.1 = "region_123_567"
    ∧ getRegionId 12.45 56.78 0.1 ≠ getRegionId 12.34 56.78 0.1 := by
  have hiff : ∀ lon1 lat1 lon2 lat2 s : Rat,
      getRegionId lon1 lat1 s = getRegionId lon2 lat2 s
        ↔ (⌊lon1 / s⌋ = ⌊lon2 / s⌋ ∧ ⌊lat1 / s⌋ = ⌊lat2 / s⌋) := by
    intro lon1 lat1 lon2 lat2 s
    constructor
    · intro h
      exact regionString_inj _ _ _ _ h
    · intro ⟨h1, h2⟩
      simp only [getRegionId, h1, h2]
  have hconc : ∀ lon lat : Rat, ∀ a b : Int,
      ⌊lon / (0.1 : Rat)⌋ = a → ⌊lat / (0.1 : Rat)⌋ = b →
      getRegionId lon lat 0.1 = "region_" ++ intRepr a ++ "_" ++ intRepr b := by
    intro lon lat a b ha hb
    simp only [getRegionId, ha, hb]
  have h1 : getRegionId 12.34 56.78 0.1 = "region_123_567" := by
    rw [hconc 12.34 56.78 123 567 (by norm_num) (by norm_num)]
    decide
  have h2 : getRegionId 12.39 56.79 0.1 = "region_123_567" := by
    rw [hconc 12.39 56.79 123 567 (by norm_num) (by norm_num)]
    decide
  have h3 : getRegionId 12.45 56.78 0.1 = "region_124_567" := by
    rw [hconc 12.45 56.78 124 567 (by norm_num) (by norm_num)]
    decide
  refine ⟨fun _ _ _ => rfl, hiff, h1, h2, ?_⟩
  rw [h3, h1]
  decide

/-! ### C6: the grouping invariant of `aggregateData` -/

theorem keyOf_bump (level : AggLevel) (b : AggregateBucket) (p : Rat) :
    keyOf level { b with demand := b.demand + 1, totalPassengers := b.totalPassengers + p }
      = keyOf level b := by
  cases level <;> rfl

theorem keyOf_fresh (level : AggLevel) (t : TripRecord) (p : Rat) :
    keyOf level { freshBucket t with demand := 1, totalPassengers := p }
      = tripKey level t := by
  cases level <;> rfl

theorem bumpFirst_map_keyOf (level : AggLevel) (k : String) (p : Rat) :
    ∀ acc : List AggregateBucket,
      (bumpFirst level k p acc).map (keyOf level) = acc.map (keyOf level) := by
  intro acc
  induction acc with
  | nil => rfl
  | cons b rest ih =>
    by_cases hb : keyOf level b = k
    · simp [bumpFirst, hb, keyOf_bump]
    · simp [bumpFirst, hb, ih]

theorem bumpFirst_sum (level : AggLevel) (k : String) (p : Rat) :
    ∀ acc : List AggregateBucket, k ∈ acc.map (keyOf level) →
      ((bumpFirst level k p acc).map (fun b => b.demand)).sum
        = ((acc.map (fun b => b.demand)).sum) + 1 := by
  intro acc
  induction acc with
  | nil => intro h; exact absurd h (List.not_mem_nil k)
  | cons b rest ih =>
    intro hk
    by_cases hb : keyOf level b = k
    · simp only [bumpFirst, if_pos hb, List.map_cons, List.sum_cons]
      ring
    · have hk' : k ∈ rest.map (keyOf level) := by
        rcases List.mem_cons.mp hk with h | h
        · exact absurd h.symm hb
        · exact h
      simp only [bumpFirst, if_neg hb, List.map_cons, List.sum_cons, ih hk']
      ring

theorem bumpFirst_mem (level : AggLevel) (k : String) (p : Rat) :
    ∀ acc : List AggregateBucket, (acc.map (keyOf level)).Nodup →
      ∀ b' ∈ bumpFirst level k p acc,
        (b' ∈ acc ∧ keyOf level b' ≠ k)
        ∨ (∃ b ∈ acc, keyOf level b = k
            ∧ b' = { b with demand := b.demand + 1,
                            totalPassengers := b.totalPassengers + p }) := by
  intro acc
  induction acc with
  | nil => intro _ b' hb'; exact absurd hb' (List.not_mem_nil b')
  | cons b rest ih =>
    intro hnd b' hb'
    have hndr : (rest.map (keyOf level)).Nodup := (List.nodup_cons.mp hnd).2
    have hknotin : keyOf level b ∉ rest.map (keyOf level) := (List.nodup_cons.mp hnd).1
    by_cases hb : keyOf level b = k
    · rw [bumpFirst, if_pos hb] at hb'
      rcases List.mem_cons.mp hb' with h | h
      · exact Or.inr ⟨b, List.mem_cons_self b rest, hb, h⟩
      · refine Or.inl ⟨List.mem_cons_of_mem b h, ?_⟩
        intro hbk
        exact hknotin (hb ▸ hbk ▸ List.mem_map_of_mem (keyOf level) h)
    · rw [bumpFirst, if_neg hb] at hb'
      rcases List.mem_cons.mp hb' with h | h
      · subst h
        exact Or.inl ⟨List.mem_cons_self b' rest, hb⟩
      · rcases ih hndr b' h with ⟨hmem, hne⟩ | ⟨b0, hb0, hb0k, hb0e⟩
        · exact Or.inl ⟨List.mem_cons_of_mem b hmem, hne⟩
        · exact Or.inr ⟨b0, List.mem_cons_of_mem b hb0, hb0k, hb0e⟩

theorem aggInv_nil (level : AggLevel) : AggInv level [] [] := by
  refine ⟨List.nodup_nil, ?_, ?_, ?_⟩
  · intro b hb; exact absurd hb (List.not_mem_nil b)
  · intro t ht; exact absurd ht (List.not_mem_nil t)
  · rfl

theorem aggInv_addTrip {level : AggLevel} {processed : List TripRecord}
    {acc : List AggregateBucket} (h : AggInv level processed acc) (t : TripRecord) :
    AggInv level (processed ++ [t]) (addTrip level acc t) := by
  obtain ⟨hnd, hdem, hmem, hsum⟩ := h
  by_cases hany : acc.any (fun b => keyOf level b == tripKey level t) = true
  · have hkin : tripKey level t ∈ acc.map (keyOf level) := by
      obtain ⟨b, hb, hbk⟩ := List.any_eq_true.mp hany
      rw [beq_iff_eq] at hbk
      exact hbk ▸ List.mem_map_of_mem (keyOf level) hb
    rw [addTrip, if_pos hany]
    refine ⟨?_, ?_, ?_, ?_⟩
    · rw [bumpFirst_map_keyOf]; exact hnd
    · intro b' hb'
      rcases bumpFirst_mem level (tripKey level t) t.passenger_count acc hnd b' hb' with
        ⟨hbacc, hne⟩ | ⟨b, hbacc, hbk, hbe⟩
      · rw [hdem b' hbacc, List.countP_append]
        have hne' : (tripKey level t == keyOf level b') = false := by
          simp only [beq_eq_false_iff_ne, ne_eq]
          exact fun hh => hne hh.symm
        have h0 : List.countP (fun x => tripKey level x == keyOf level b') [t] = 0 := by
          simp [List.countP_cons, hne']
        rw [h0, Nat.add_zero]
      · have hkeyb' : keyOf level b' = keyOf level b := by
          rw [hbe]; exact keyOf_bump level b t.passenger_count
        have hdm : b'.demand = b.demand + 1 := by rw [hbe]
        rw [hkeyb', hbk, hdm, hdem b hbacc, hbk, List.countP_append]
        have h1 : List.countP (fun x => tripKey level x == tripKey level t) [t] = 1 := by
          simp [List.countP_cons]
        rw [h1]
        push_cast
        ring
    · intro t' ht'
      rw [bumpFirst_map_keyOf]
      rcases List.mem_append.mp ht' with h | h
      · exact hmem t' h
      · have : t' = t := by
          rcases List.mem_cons.mp h with h' | h'
          · exact h'
          · exact absurd h' (List.not_mem_nil t')
        exact this ▸ hkin
    · rw [bumpFirst_sum level _ _ acc hkin, hsum]
      push_cast [List.length_append, List.length_singleton]
      ring
  · have hknotin : tripKey level t ∉ acc.map (keyOf level) := by
      intro hk
      obtain ⟨b, hb, hbk⟩ := List.mem_map.mp hk
      exact hany (List.any_eq_true.mpr ⟨b, hb, beq_iff_eq.mpr hbk⟩)
    rw [addTrip, if_neg hany]
    refine ⟨?_, ?_, ?_, ?_⟩
    · rw [List.map_append, List.map_singleton, keyOf_fresh]
      simp only [List.nodup_append, List.nodup_cons, List.not_mem_nil, not_false_iff,
        List.nodup_nil, and_true, true_and]
      refine ⟨hnd, ?_⟩
      intro a ha hmem1
      rcases List.mem_cons.mp hmem1 with h | h
      · exact hknotin (h ▸ ha)
      · exact absurd h (List.not_mem_nil a)
    · intro b' hb'
      rcases List.mem_append.mp hb' with h | h
      · have hne : tripKey level t ≠ keyOf level b' := by
          intro hk
          exact hknotin (hk ▸ List.mem_map_of_mem (keyOf level) h)
        rw [hdem b' h, List.countP_append]
        have h0 : List.countP (fun x => tripKey level x == keyOf level b') [t] = 0 := by
          simp [List.countP_cons, hne]
        rw [h0, Nat.add_zero]
      · have hb'eq : b' = { freshBucket t with demand := 1, totalPassengers := t.passenger_count } := by
          rcases List.mem_cons.mp h with h' | h'
          · exact h'
          · exact absurd h' (List.not_mem_nil b')
        subst hb'eq
        have hkf : keyOf level { freshBucket t with demand := 1, totalPassengers := t.passenger_count } = tripKey level t :=
          keyOf_fresh level t t.passenger_count
        rw [hkf, List.countP_append]
        have h0 : List.countP (fun x => tripKey level x == tripKey level t) processed = 0 := by
          rw [List.countP_eq_zero]
          intro t' ht'
          simp only [beq_iff_eq]
          intro hk
          exact hknotin (hk ▸ hmem t' ht')
        have h1 : List.countP (fun x => tripKey level x == tripKey level t) [t] = 1 := by
          simp [List.countP_cons]
        rw [h0, h1]
        norm_num
    · intro t' ht'
      rw [List.map_append, List.map_singleton, keyOf_fresh]
      rcases List.mem_append.mp ht' with h | h
      · exact List.mem_append_left _ (hmem t' h)
      · have : t' = t := by
          rcases List.mem_cons.mp h with h' | h'
          · exact h'
          · exact absurd h' (List.not_mem_nil t')
        subst this
        exact List.mem_append_right _ (List.mem_cons_self _ _)
    · rw [List.map_append, List.map_singleton]
      rw [List.sum_append, List.sum_cons, List.sum_nil, hsum]
      push_cast [List.length_append, List.length_singleton]
      ring

theorem aggInv_foldl (level : AggLevel) :
    ∀ (trips : List TripRecord) (processed : List TripRecord) (acc : List AggregateBucket),
      AggInv level processed acc →
      AggInv level (processed ++ trips) (trips.foldl (addTrip level) acc) := by
  intro trips
  induction trips with
  | nil => intro processed acc h; simpa using h
  | cons t ts ih =>
    intro processed acc h
    have := ih (processed ++ [t]) (addTrip level acc t) (aggInv_addTrip h t)
    simpa [List.append_assoc] using this

theorem aggInv_grouped (level : AggLevel) (trips : List TripRecord) :
    AggInv level trips (trips.foldl (addTrip level) []) := by
  have := aggInv_foldl level trips [] [] (aggInv_nil level)
  simpa using this

theorem sortByDate_perm (l : List AggregateBucket) : List.Perm (sortByDate l) l :=
  List.perm_insertionSort dateLe l

theorem countP_keyOf_eq_count (level : AggLevel) (k : String) (acc : List AggregateBucket) :
    acc.countP (fun b => keyOf level b == k) = (acc.map (keyOf level)).count k := by
  induction acc with
  | nil => rfl
  | cons b rest ih =>
    simp only [List.countP_cons, List.map_cons, List.count_cons, ih]

/-! ### C6 -/

/-- C6: each bucket of `aggregateData` has demand equal to the number of trips
carrying that bucket's exact composite key, every trip contributes to exactly
one bucket, and the demands over all buckets sum to the number of trips. -/
theorem aggregateData_demand_counts (level : AggLevel) (trips : List TripRecord) :
    (∀ b ∈ aggregateData level trips,
        b.demand = (trips.countP (fun t => tripKey level t == keyOf level b) : Rat))
    ∧ (∀ t ∈ trips,
        (aggregateData level trips).countP (fun b => keyOf level b == tripKey level t) = 1)
    ∧ ((aggregateData level trips).map (fun b => b.demand)).sum = (trips.length : Rat) := by
  obtain ⟨hnd, hdem, hmem, hsum⟩ := aggInv_grouped level trips
  have hperm := sortByDate_perm (trips.foldl (addTrip level) [])
  simp only [aggregateData]
  refine ⟨?_, ?_, ?_⟩
  · intro b hb
    exact hdem b (hperm.mem_iff.mp hb)
  · intro t ht
    rw [hperm.countP_eq, countP_keyOf_eq_count]
    have h1 : ((trips.foldl (addTrip level) []).map (keyOf level)).count (tripKey level t)
        ≤ 1 := List.nodup_iff_count_le_one.mp hnd (tripKey level t)
    have h2 : 0 < ((trips.foldl (addTrip level) []).map (keyOf level)).count
        (tripKey level t) := List.count_pos_iff.mpr (hmem t ht)
    omega
  · have hp : List.Perm ((sortByDate (trips.foldl (addTrip level) [])).map (fun b => b.demand))
        (((trips.foldl (addTrip level) [])).map (fun b => b.demand)) := hperm.map _
    rw [hp.sum_eq, hsum]

/-- C6 witness: on two concrete trips with distinct keys, the first trip's key
matches exactly one bucket. -/
theorem aggregateData_demand_counts_witness :
    (aggregateData AggLevel.daily [wtA, wtB]).countP
      (fun b => keyOf AggLevel.daily b == tripKey AggLevel.daily wtA) = 1 :=
  (aggregateData_demand_counts AggLevel.daily [wtA, wtB]).2.1 wtA (by decide)

/-! ### C5: per-region sequence counts and window shape -/

theorem uniqueFirstAux_mem :
    ∀ (l seen : List String) (x : String),
      x ∈ uniqueFirstAux seen l ↔ (x ∈ l ∧ x ∉ seen) := by
  intro l
  induction l with
  | nil => intro seen x; simp [uniqueFirstAux]
  | cons a l ih =>
    intro seen x
    by_cases ha : a ∈ seen
    · rw [uniqueFirstAux, if_pos ha, ih]
      constructor
      · rintro ⟨hx, hs⟩
        exact ⟨List.mem_cons_of_mem a hx, hs⟩
      · rintro ⟨hx, hs⟩
        rcases List.mem_cons.mp hx with rfl | hx
        · exact absurd ha hs
        · exact ⟨hx, hs⟩
    · rw [uniqueFirstAux, if_neg ha]
      constructor
      · intro hx
        rcases List.mem_cons.mp hx with rfl | hx
        · exact ⟨List.mem_cons_self _ _, ha⟩
        · have h := (ih (a :: seen) x).mp hx
          exact ⟨List.mem_cons_of_mem a h.1, fun hs => h.2 (List.mem_cons_of_mem a hs)⟩
      · rintro ⟨hx, hs⟩
        rcases List.mem_cons.mp hx with rfl | hx
        · exact List.mem_cons_self _ _
        · by_cases hxa : x = a
          · subst hxa; exact List.mem_cons_self _ _
          · refine List.mem_cons_of_mem a ((ih (a :: seen) x).mpr ⟨hx, ?_⟩)
            intro hmem
            rcases List.mem_cons.mp hmem with h | h
            · exact hxa h
            · exact hs h

theorem uniqueFirstAux_nodup : ∀ (l seen : List String), (uniqueFirstAux seen l).Nodup := by
  intro l
  induction l with
  | nil => intro seen; exact List.nodup_nil
  | cons a l ih =>
    intro seen
    by_cases ha : a ∈ seen
    · rw [uniqueFirstAux, if_pos ha]; exact ih seen
    · rw [uniqueFirstAux, if_neg ha]
      refine List.nodup_cons.mpr ⟨?_, ih (a :: seen)⟩
      intro hmem
      exact ((uniqueFirstAux_mem l (a :: seen) a).mp hmem).2 (List.mem_cons_self _ _)

theorem uniqueFirst_mem (l : List String) (x : String) : x ∈ uniqueFirst l ↔ x ∈ l := by
  rw [uniqueFirst, uniqueFirstAux_mem]
  simp

theorem uniqueFirst_nodup (l : List String) : (uniqueFirst l).Nodup :=
  uniqueFirstAux_nodup l []

theorem countP_flatMap_zero {β : Type} (p : β → Bool) :
    ∀ (l : List String) (f : String → List β),
      (∀ r ∈ l, ∀ b ∈ f r, p b = false) → ((l.flatMap f).countP p) = 0 := by
  intro l
  induction l with
  | nil => intro f _; rfl
  | cons a l ih =>
    intro f h
    rw [List.flatMap_cons, List.countP_append]
    rw [List.countP_eq_zero.mpr (fun b hb => by rw [h a (List.mem_cons_self _ _) b hb]; decide),
      ih f (fun r hr => h r (List.mem_cons_of_mem a hr))]

theorem countP_flatMap_single {β : Type} (p : β → Bool) (f : String → List β) (r : String) :
    ∀ l : List String, l.Nodup → r ∈ l →
      (∀ b ∈ f r, p b = true) →
      (∀ r' ∈ l, r' ≠ r → ∀ b ∈ f r', p b = false) →
      (l.flatMap f).countP p = (f r).length := by
  intro l
  induction l with
  | nil => intro _ hr; exact absurd hr (List.not_mem_nil r)
  | cons a l ih =>
    intro hnd hr hself hother
    rw [List.flatMap_cons, List.countP_append]
    rcases List.mem_cons.mp hr with rfl | hrl
    · rw [List.countP_eq_length.mpr hself]
      rw [countP_flatMap_zero p l f ?_, Nat.add_zero]
      intro r' hr' b hb
      refine hother r' (List.mem_cons_of_mem r hr') ?_ b hb
      intro heq
      exact (List.nodup_cons.mp hnd).1 (heq ▸ hr')
    · rw [List.countP_eq_zero.mpr ?_, Nat.zero_add]
      · exact ih (List.nodup_cons.mp hnd).2 hrl hself
          (fun r' hr' => hother r' (List.mem_cons_of_mem a hr'))
      · intro b hb
        have ha : a ≠ r := by
          intro heq
          exact (List.nodup_cons.mp hnd).1 (heq ▸ hrl)
        rw [hother a (List.mem_cons_self _ _) ha b hb]
        decide

theorem windowAt_eq_take_drop (L k : Nat) (rd : List AggregateBucket)
    (hk : k + L ≤ rd.length) :
    windowAt L rd (L + k) = (rd.drop k).take L := by
  apply List.ext_getElem
  · simp only [windowAt, List.length_map, List.length_range', List.length_take,
      List.length_drop]
    omega
  · intro i h1 h2
    simp only [windowAt, List.length_map, List.length_range'] at h1
    simp only [windowAt, List.getElem_map, List.getElem_range', List.getElem_take,
      List.getElem_drop]
    have hidx : L + k - L + 1 * i = k + i := by omega
    rw [hidx, List.getD_eq_getElem _ _ (by omega)]

theorem regionPairs_length (L : Nat) (rd : List AggregateBucket) :
    (regionPairs L rd).length = rd.length - L := by
  by_cases h : rd.length ≤ L
  · rw [regionPairs, if_pos h]
    simp
    omega
  · rw [regionPairs, if_neg h]
    simp [List.length_range']

theorem regionPairs_getD (L : Nat) (rd : List AggregateBucket) (k : Nat)
    (hk : k < (regionPairs L rd).length) :
    (regionPairs L rd).getD k default
      = ((rd.drop k).take L, rd.getD (L + k) default) := by
  have hk' : k < rd.length - L := by
    rw [← regionPairs_length L rd]; exact hk
  have hnot : ¬ rd.length ≤ L := by omega
  rw [regionPairs, if_neg hnot,
    List.getD_eq_getElem _ _ (by simp only [List.length_map, List.length_range']; omega)]
  simp only [List.getElem_map, List.getElem_range']
  have h1k : L + 1 * k = L + k := by omega
  rw [h1k, windowAt_eq_take_drop L k rd (by omega)]

theorem mem_regionBuckets_region (data : List AggregateBucket) (r : String) :
    ∀ b ∈ regionBuckets data r, b.region = r := by
  intro b hb
  have hb' : b ∈ data.filter (fun d => d.region == r) :=
    (sortByDate_perm (data.filter (fun d => d.region == r))).subset hb
  exact beq_iff_eq.mp (List.mem_filter.mp hb').2

theorem regionPairs_target_region (L : Nat) (data : List AggregateBucket) (r : String) :
    ∀ p ∈ regionPairs L (regionBuckets data r), p.2.region = r := by
  intro p hp
  by_cases h : (regionBuckets data r).length ≤ L
  · rw [regionPairs, if_pos h] at hp
    exact absurd hp (List.not_mem_nil p)
  · rw [regionPairs, if_neg h] at hp
    obtain ⟨i, hi, hpe⟩ := List.mem_map.mp hp
    obtain ⟨j, hj, hij⟩ := List.mem_range'.mp hi
    have hilt : i < (regionBuckets data r).length := by omega
    rw [← hpe]
    show ((regionBuckets data r).getD i default).region = r
    rw [List.getD_eq_getElem _ _ hilt]
    exact mem_regionBuckets_region data r _ (List.getElem_mem hilt)

/-- C5: a region with `n` buckets contributes no `(window, target)` pair when
`n < sequenceLength + 1` and exactly `n − sequenceLength` pairs otherwise
(`Nat` subtraction makes both cases `n - L`); the `k`-th pair reads the window
`buckets[i−L … i−1]` (as a slice of the date-sorted region buckets) and targets
`buckets[i]` for `i = L + k`. -/
theorem createSequences_per_region (L : Nat) (data : List AggregateBucket) (r : String)
    (hr : r ∈ data.map (fun d => d.region)) :
    (allPairs L data).countP (fun p => p.2.region == r)
        = (regionBuckets data r).length - L
    ∧ ((regionBuckets data r).length ≤ L → regionPairs L (regionBuckets data r) = [])
    ∧ (regionPairs L (regionBuckets data r)).length = (regionBuckets data r).length - L
    ∧ ∀ k, k < (regionPairs L (regionBuckets data r)).length →
        (regionPairs L (regionBuckets data r)).getD k default
          = (((regionBuckets data r).drop k).take L,
             (regionBuckets data r).getD (L + k) default) := by
  refine ⟨?_, ?_, regionPairs_length L _, regionPairs_getD L _⟩
  · rw [allPairs,
      countP_flatMap_single (fun p => p.2.region == r)
        (fun r' => regionPairs L (regionBuckets data r')) r
        (uniqueFirst (data.map (fun d => d.region)))
        (uniqueFirst_nodup _) ((uniqueFirst_mem _ r).mpr hr)
        (fun p hp => beq_iff_eq.mpr (regionPairs_target_region L data r p hp))
        ?_]
    · exact regionPairs_length L _
    · intro r' hr' hne p hp
      have hreg := regionPairs_target_region L data r' p hp
      simp [hreg, hne]
  · intro h
    rw [regionPairs, if_pos h]

/-- C5 witness: with sequence length 5 and twenty single-region buckets, the
region contributes `20 − 5` pairs. -/
theorem createSequences_per_region_witness :
    (allPairs 5 wBuckets).countP (fun p => p.2.region == "a")
      = (regionBuckets wBuckets "a").length - 5 :=
  (createSequences_per_region 5 wBuckets "a" (by decide)).1

/-! ### C1: no look-ahead -/

theorem sortByDate_sorted (l : List AggregateBucket) :
    List.Sorted dateLe (sortByDate l) :=
  List.sorted_insertionSort dateLe l

theorem sorted_regionBuckets (data : List AggregateBucket) (r : String) :
    List.Sorted dateLe (regionBuckets data r) :=
  List.sorted_insertionSort dateLe _

theorem mem_regionPairs (L : Nat) (rd : List AggregateBucket) (p : List AggregateBucket × AggregateBucket)
    (hp : p ∈ regionPairs L rd) :
    ∃ i, L ≤ i ∧ i < rd.length ∧ p = (windowAt L rd i, rd.getD i default) := by
  by_cases h : rd.length ≤ L
  · rw [regionPairs, if_pos h] at hp
    exact absurd hp (List.not_mem_nil p)
  · rw [regionPairs, if_neg h] at hp
    obtain ⟨i, hi, hpe⟩ := List.mem_map.mp hp
    obtain ⟨j, hj, hij⟩ := List.mem_range'.mp hi
    exact ⟨i, by omega, by omega, hpe.symm⟩

theorem mem_allPairs (L : Nat) (data : List AggregateBucket)
    (p : List AggregateBucket × AggregateBucket) (hp : p ∈ allPairs L data) :
    ∃ r i, L ≤ i ∧ i < (regionBuckets data r).length
      ∧ p = (windowAt L (regionBuckets data r) i, (regionBuckets data r).getD i default) := by
  rw [allPairs] at hp
  obtain ⟨r, _, hpr⟩ := List.mem_flatMap.mp hp
  obtain ⟨i, h1, h2, h3⟩ := mem_regionPairs L _ p hpr
  exact ⟨r, i, h1, h2, h3⟩

theorem mem_windowAt (L : Nat) (rd : List AggregateBucket) (i : Nat) (b : AggregateBucket)
    (hb : b ∈ windowAt L rd i) :
    ∃ j, i - L ≤ j ∧ j < i - L + L ∧ b = rd.getD j default := by
  rw [windowAt] at hb
  obtain ⟨j, hj, hbe⟩ := List.mem_map.mp hb
  obtain ⟨m, hm, hmj⟩ := List.mem_range'.mp hj
  exact ⟨j, by omega, by omega, hbe.symm⟩

theorem sorted_getD_le {rd : List AggregateBucket} (hs : List.Sorted dateLe rd)
    {j i : Nat} (hji : j < i) (hi : i < rd.length) :
    (rd.getD j default).date ≤ (rd.getD i default).date := by
  have hj : j < rd.length := lt_trans hji hi
  rw [List.getD_eq_getElem _ _ hj, List.getD_eq_getElem _ _ hi]
  exact List.pairwise_iff_getElem.mp hs j i hj hi hji

theorem pairwise_ne_getD {rd : List AggregateBucket}
    (hp : List.Pairwise (fun a b => a.date ≠ b.date) rd)
    {j i : Nat} (hji : j < i) (hi : i < rd.length) :
    (rd.getD j default).date ≠ (rd.getD i default).date := by
  have hj : j < rd.length := lt_trans hji hi
  rw [List.getD_eq_getElem _ _ hj, List.getD_eq_getElem _ _ hi]
  exact List.pairwise_iff_getElem.mp hp j i hj hi hji

theorem aggregateData_keys_nodup (level : AggLevel) (trips : List TripRecord) :
    ((aggregateData level trips).map (keyOf level)).Nodup := by
  obtain ⟨hnd0, _, _, _⟩ := aggInv_grouped level trips
  have hperm := (sortByDate_perm (trips.foldl (addTrip level) [])).map (keyOf level)
  rw [aggregateData]
  exact hperm.nodup_iff.mpr hnd0

theorem dailyBuckets_pairwise_ne (trips : List TripRecord) (r : String) :
    List.Pairwise (fun a b => a.date ≠ b.date)
      (regionBuckets (aggregateData AggLevel.daily trips) r) := by
  have hkeys : List.Pairwise
      (fun a b => keyOf AggLevel.daily a ≠ keyOf AggLevel.daily b)
      (aggregateData AggLevel.daily trips) :=
    List.pairwise_map.mp (aggregateData_keys_nodup AggLevel.daily trips)
  have hfil : List.Pairwise
      (fun a b => keyOf AggLevel.daily a ≠ keyOf AggLevel.daily b)
      ((aggregateData AggLevel.daily trips).filter (fun d => d.region == r)) :=
    hkeys.sublist (List.filter_sublist _)
  have hperm := sortByDate_perm
    ((aggregateData AggLevel.daily trips).filter (fun d => d.region == r))
  have hsorted : List.Pairwise
      (fun a b => keyOf AggLevel.daily a ≠ keyOf AggLevel.daily b)
      (regionBuckets (aggregateData AggLevel.daily trips) r) :=
    (hperm.pairwise_iff (fun h => (h ·.symm))).mpr hfil
  refine hsorted.imp_of_mem ?_
  intro a b ha hb hk hdate
  apply hk
  have hra : a.region = r := mem_regionBuckets_region _ r a ha
  have hrb : b.region = r := mem_regionBuckets_region _ r b hb
  show natRepr a.date ++ "_" ++ a.region = natRepr b.date ++ "_" ++ b.region
  rw [hdate, hra, hrb]

/-- C1 counterexample: under hourly aggregation two same-day trips in one
region produce a sample whose single (hence latest) window bucket has the same
date as its target — the target's date does not strictly follow. -/
theorem sequence_no_lookahead_cex :
    (allPairs 1 (aggregateData AggLevel.hourly [hA, hB])).map
        (fun p => (p.1.map (fun b => b.date), p.2.date)) = [([5], 5)]
    ∧ ¬ (∀ p ∈ allPairs 1 (aggregateData AggLevel.hourly [hA, hB]),
          ∀ b ∈ p.1, b.date < p.2.date) := by
  constructor
  · decide
  · decide

/-- C1 amended: every bucket of a sample's window is dated no later than the
sample's target (so the latest window bucket never exceeds the target's date);
under daily aggregation the inequality is strict — the target's date strictly
follows — while under hourly aggregation a window bucket may share the
target's date. -/
theorem sequence_no_lookahead_amended :
    (∀ (L : Nat) (data : List AggregateBucket), ∀ p ∈ allPairs L data,
        ∀ b ∈ p.1, b.date ≤ p.2.date)
    ∧ (∀ (L : Nat) (trips : List TripRecord),
        ∀ p ∈ allPairs L (aggregateData AggLevel.daily trips),
        ∀ b ∈ p.1, b.date < p.2.date) := by
  constructor
  · intro L data p hp b hb
    obtain ⟨r, i, hLi, hilt, rfl⟩ := mem_allPairs L data p hp
    obtain ⟨j, hj1, hj2, rfl⟩ := mem_windowAt L _ i b hb
    have hji : j < i := by omega
    exact sorted_getD_le (sorted_regionBuckets data r) hji hilt
  · intro L trips p hp b hb
    obtain ⟨r, i, hLi, hilt, rfl⟩ := mem_allPairs L _ p hp
    obtain ⟨j, hj1, hj2, rfl⟩ := mem_windowAt L _ i b hb
    have hji : j < i := by omega
    have hle := sorted_getD_le (sorted_regionBuckets _ r) hji hilt
    have hne := pairwise_ne_getD (dailyBuckets_pairwise_ne trips r) hji hilt
    exact Nat.lt_of_le_of_ne hle hne

/-- C1 witness: on two concrete daily trips the produced sample's window
bucket is dated strictly before the target. -/
theorem sequence_no_lookahead_witness :
    ∀ b ∈ (([wbA], wbB) : List AggregateBucket × AggregateBucket).1,
      b.date < (([wbA], wbB) : List AggregateBucket × AggregateBucket).2.date :=
  sequence_no_lookahead_amended.2 1 [wtA, wtB] ([wbA], wbB) (by decide)

/-! ### C2 -/

/-- C2: `splitData` computes `trainSize = ⌊N·r⌋`, splits train as the leading
slice `[0, trainSize)` and test as the remainder with no reordering, fits the
feature scaler on the flattened training features only and the target scaler
on the training targets only, applies those same fitted scalers to normalize
both train and test, and keeps `originalTargets` as the exact unnormalized
target slice `[trainSize, N)`. -/
theorem splitData_spec (trainRatio : Rat) (seqs : Sequences)
    (hT : seqs.targets.length = seqs.features.length)
    (hD : seqs.dates.length = seqs.features.length)
    (h0 : 0 < trainRatio) (h1 : trainRatio < 1) :
    ((trainSize seqs.features.length trainRatio : Int)
        = ⌊(seqs.features.length : Rat) * trainRatio⌋
      ∧ trainSize seqs.features.length trainRatio ≤ seqs.features.length)
    ∧ ((splitData trainRatio seqs).trainTargets.length
        = trainSize seqs.features.length trainRatio
      ∧ (splitData trainRatio seqs).testTargets.length
        = seqs.features.length - trainSize seqs.features.length trainRatio)
    ∧ (seqs.features.take (trainSize seqs.features.length trainRatio)
          ++ seqs.features.drop (trainSize seqs.features.length trainRatio)
        = seqs.features
      ∧ seqs.targets.take (trainSize seqs.features.length trainRatio)
          ++ seqs.targets.drop (trainSize seqs.features.length trainRatio)
        = seqs.targets)
    ∧ ((splitData trainRatio seqs).featureScaler
        = createScaler (flatten3 (seqs.features.take (trainSize seqs.features.length trainRatio)))
      ∧ (splitData trainRatio seqs).targetScaler
        = createScaler (seqs.targets.take (trainSize seqs.features.length trainRatio)))
    ∧ ((splitData trainRatio seqs).trainFeatures
        = normalize3 (splitData trainRatio seqs).featureScaler
            (seqs.features.take (trainSize seqs.features.length trainRatio))
      ∧ (splitData trainRatio seqs).testFeatures
        = normalize3 (splitData trainRatio seqs).featureScaler
            (seqs.features.drop (trainSize seqs.features.length trainRatio))
      ∧ (splitData trainRatio seqs).trainTargets
        = (seqs.targets.take (trainSize seqs.features.length trainRatio)).map
            (splitData trainRatio seqs).targetScaler.normalize
      ∧ (splitData trainRatio seqs).testTargets
        = (seqs.targets.drop (trainSize seqs.features.length trainRatio)).map
            (splitData trainRatio seqs).targetScaler.normalize)
    ∧ (splitData trainRatio seqs).originalTargets
        = seqs.targets.drop (trainSize seqs.features.length trainRatio)
    ∧ (splitData trainRatio seqs).testDates
        = seqs.dates.drop (trainSize seqs.features.length trainRatio) := by
  have hnn : (0 : Rat) ≤ (seqs.features.length : Rat) * trainRatio := by
    have : (0 : Rat) ≤ (seqs.features.length : Rat) := Nat.cast_nonneg _
    exact mul_nonneg this (le_of_lt h0)
  have hfloor : (trainSize seqs.features.length trainRatio : Int)
      = ⌊(seqs.features.length : Rat) * trainRatio⌋ := by
    rw [trainSize]
    exact Int.toNat_of_nonneg (Int.floor_nonneg.mpr hnn)
  have hle : trainSize seqs.features.length trainRatio ≤ seqs.features.length := by
    have hmul : (seqs.features.length : Rat) * trainRatio ≤ (seqs.features.length : Rat) := by
      have : (0 : Rat) ≤ (seqs.features.length : Rat) := Nat.cast_nonneg _
      calc (seqs.features.length : Rat) * trainRatio
          ≤ (seqs.features.length : Rat) * 1 := by
            exact mul_le_mul_of_nonneg_left (le_of_lt h1) this
        _ = (seqs.features.length : Rat) := mul_one _
    have : ⌊(seqs.features.length : Rat) * trainRatio⌋ ≤ (seqs.features.length : Int) := by
      calc ⌊(seqs.features.length : Rat) * trainRatio⌋
          ≤ ⌊(seqs.features.length : Rat)⌋ := Int.floor_le_floor hmul
        _ = (seqs.features.length : Int) := Int.floor_natCast _
    omega
  refine ⟨⟨hfloor, hle⟩, ⟨?_, ?_⟩, ⟨List.take_append_drop _ _, List.take_append_drop _ _⟩,
    ⟨rfl, rfl⟩, ⟨rfl, rfl, rfl, rfl⟩, rfl, rfl⟩
  · show ((seqs.targets.take (trainSize seqs.features.length trainRatio)).map _).length = _
    rw [List.length_map, List.length_take, hT]
    omega
  · show ((seqs.targets.drop (trainSize seqs.features.length trainRatio)).map _).length = _
    rw [List.length_map, List.length_drop, hT]

/-- C2 witness: the concrete five-sample split at ratio `0.8` keeps the
unnormalized tail as `originalTargets`. -/
theorem splitData_spec_witness :
    (splitData 0.8 wSeqs).originalTargets
      = wSeqs.targets.drop (trainSize wSeqs.features.length 0.8) :=
  (splitData_spec 0.8 wSeqs (by decide) (by decide) (by norm_num) (by norm_num)).2.2.2.2.2.1

/-! ### C8 -/

theorem length_flatMap_const {α β : Type} (l : List α) (f : α → List β) (d : Nat)
    (h : ∀ a ∈ l, (f a).length = d) : (l.flatMap f).length = l.length * d := by
  induction l with
  | nil => simp
  | cons a t ih =>
    rw [List.flatMap_cons, List.length_append, h a (List.mem_cons_self a t),
      ih (fun x hx => h x (List.mem_cons_of_mem a hx)), List.length_cons]
    ring

/-- C8: for each region of the sequence set with at least `sequenceLength`
buckets (in filter order), `generateFutureSequence` emits exactly one window —
that region's most recent `sequenceLength` buckets, feature-encoded and then
normalized with the already-fitted feature scaler — and exactly
`daysToPredict` future labels dated `lastDate + 1 … lastDate + daysToPredict`
paired with the region id; if no region qualifies it fails with the error. -/
theorem generateFutureSequence_spec (d : Nat) (data : List AggregateBucket)
    (seqs : Sequences) (sc : Scaler) :
    (seqs.regions.filter
        (fun r => (seqs.features.headD []).length ≤ (regionBuckets data r).length) = [] →
      generateFutureSequence d data seqs sc
        = Except.error "Could not generate future sequences")
    ∧ (seqs.regions.filter
        (fun r => (seqs.features.headD []).length ≤ (regionBuckets data r).length) ≠ [] →
      ∃ res, generateFutureSequence d data seqs sc = Except.ok res
        ∧ res.features = (seqs.regions.filter
            (fun r => (seqs.features.headD []).length ≤ (regionBuckets data r).length)).map
              (fun r => (((regionBuckets data r).drop
                  ((regionBuckets data r).length - (seqs.features.headD []).length)).map
                    featureVector).map (fun row => row.map sc.normalize))
        ∧ res.features.length = (seqs.regions.filter
            (fun r => (seqs.features.headD []).length ≤ (regionBuckets data r).length)).length
        ∧ res.dates = (seqs.regions.filter
            (fun r => (seqs.features.headD []).length ≤ (regionBuckets data r).length)).flatMap
              (fun r => (List.range' 1 d).map (fun i =>
                ({ date := (data.getLastD default).date + i, region := r } : DateRegion)))
        ∧ res.dates.length = (seqs.regions.filter
            (fun r => (seqs.features.headD []).length ≤ (regionBuckets data r).length)).length * d
        ∧ (∀ r ∈ seqs.regions.filter
            (fun r => (seqs.features.headD []).length ≤ (regionBuckets data r).length),
            ((regionBuckets data r).drop
              ((regionBuckets data r).length - (seqs.features.headD []).length)).length
                = (seqs.features.headD []).length)) := by
  constructor
  · intro hq
    simp only [generateFutureSequence]
    rw [hq]
    rfl
  · intro hq
    have hne : ¬ ((seqs.regions.filter
        (fun r => (seqs.features.headD []).length ≤ (regionBuckets data r).length)).map
          (fun r => ((regionBuckets data r).drop
            ((regionBuckets data r).length - (seqs.features.headD []).length)).map
              featureVector)).isEmpty = true := by
      simp only [List.isEmpty_iff, List.map_eq_nil_iff]
      exact hq
    have hok : generateFutureSequence d data seqs sc = Except.ok
        { features := (seqs.regions.filter
            (fun r => (seqs.features.headD []).length ≤ (regionBuckets data r).length)).map
              (fun r => (((regionBuckets data r).drop
                  ((regionBuckets data r).length - (seqs.features.headD []).length)).map
                    featureVector).map (fun row => row.map sc.normalize))
          dates := (seqs.regions.filter
            (fun r => (seqs.features.headD []).length ≤ (regionBuckets data r).length)).flatMap
              (fun r => (List.range' 1 d).map (fun i =>
                ({ date := (data.getLastD default).date + i, region := r } : DateRegion))) } := by
      simp only [generateFutureSequence]
      rw [if_neg hne, List.map_map]
      rfl
    refine ⟨_, hok, rfl, ?_, rfl, ?_, ?_⟩
    · simp
    · show ((seqs.regions.filter _).flatMap _).length = _
      rw [length_flatMap_const _ _ d]
      intro r _
      rw [List.length_map, List.length_range']
    · intro r hr
      have hmem := List.mem_filter.mp hr
      have hlen : (seqs.features.headD []).length ≤ (regionBuckets data r).length :=
        of_decide_eq_true hmem.2
      rw [List.length_drop]
      omega

/-- C8 witness: on the twenty-bucket history with a window length of three and
seven days to predict, the single qualifying region gets one window and seven
future labels. -/
theorem generateFutureSequence_spec_witness :
    ∃ res, generateFutureSequence 7 wBuckets wSeqsF wScaler = Except.ok res
      ∧ res.features = (wSeqsF.regions.filter
          (fun r => (wSeqsF.features.headD []).length ≤ (regionBuckets wBuckets r).length)).map
            (fun r => (((regionBuckets wBuckets r).drop
                ((regionBuckets wBuckets r).length - (wSeqsF.features.headD []).length)).map
                  featureVector).map (fun row => row.map wScaler.normalize))
      ∧ res.features.length = (wSeqsF.regions.filter
          (fun r => (wSeqsF.features.headD []).length ≤ (regionBuckets wBuckets r).length)).length
      ∧ res.dates = (wSeqsF.regions.filter
          (fun r => (wSeqsF.features.headD []).length ≤ (regionBuckets wBuckets r).length)).flatMap
            (fun r => (List.range' 1 7).map (fun i =>
              ({ date := (wBuckets.getLastD default).date + i, region := r } : DateRegion)))
      ∧ res.dates.length = (wSeqsF.regions.filter
          (fun r => (wSeqsF.features.headD []).length ≤ (regionBuckets wBuckets r).length)).length * 7
      ∧ (∀ r ∈ wSeqsF.regions.filter
          (fun r => (wSeqsF.features.headD []).length ≤ (regionBuckets wBuckets r).length),
          ((regionBuckets wBuckets r).drop
            ((regionBuckets wBuckets r).length - (wSeqsF.features.headD []).length)).length
              = (wSeqsF.features.headD []).length) :=
  (generateFutureSequence_spec 7 wBuckets wSeqsF wScaler).2 (by decide)
